import Mathlib

/-!
Verification development for the akadressen address-book synchronization
engine.  The Python sources under `src/akadressen/` are shallowly embedded:
the stateful CardDAV client (`_ncaddressbook.py`) becomes pure functions on
an explicit identity-to-etag map together with a trace of the HTTP requests
an operation issues; network responses are passed in as data.  The merge
engine (`_merge_vcards.py` is imported by the package but its source file is
not part of the repository snapshot) is modelled from the specification.
-/

set_option autoImplicit false

namespace Akadressen

/-! ## Python truthiness helpers -/

/-- Truthiness of a Python `str`: the empty string is falsy. -/
def pyTruthyStr (s : String) : Bool := s ≠ ""

/-- Truthiness of a Python `Optional[str]`: `None` and `""` are falsy. -/
def pyTruthyOpt : Option String → Bool
  | none => false
  | some s => s ≠ ""

/-- Characters after the last `/`; `cur` holds the current segment in
reverse. -/
def lastSegmentAux : List Char → List Char → List Char
  | [], cur => cur.reverse
  | c :: rest, cur =>
    if c = '/' then lastSegmentAux rest [] else lastSegmentAux rest (c :: cur)

/-- `s.rsplit("/", 1)[-1]`: the part of `s` after the last `/`
(or all of `s` when there is no `/`). -/
def lastSegment (s : String) : String :=
  String.mk (lastSegmentAux s.toList [])

/-- Python's `str.removesuffix`. -/
def removeSuffix (s suf : String) : String :=
  if suf.toList.isSuffixOf s.toList then
    String.mk (s.toList.take (s.toList.length - suf.toList.length))
  else s

/-! ## XML element trees (`xml.etree.ElementTree`)

An element has a tag, optional text and a list of children.  `iterList`
is `Element.iter()`: the element itself followed by all descendants in
document order. -/

inductive XNode where
  | mk (tag : String) (text : Option String) (children : List XNode)

def XNode.tag : XNode → String
  | .mk t _ _ => t

def XNode.text : XNode → Option String
  | .mk _ x _ => x

def XNode.children : XNode → List XNode
  | .mk _ _ cs => cs

mutual

def XNode.iterList : XNode → List XNode
  | .mk t x cs => .mk t x cs :: iterListAux cs

def iterListAux : List XNode → List XNode
  | [] => []
  | n :: ns => n.iterList ++ iterListAux ns

end

/-! ## The identity-to-version map (`self._uids`)

A Python `dict[str, Optional[str]]` preserving insertion order: updating an
existing key keeps its position, a new key is appended at the end.  The
values are `Option String` because `get_vcard_bytes` stores
`response.headers.get("oc-etag")`, which may be `None`. -/

abbrev UidMap := List (String × Option String)

def dictSet : UidMap → String → Option String → UidMap
  | [], k, v => [(k, v)]
  | (k', v') :: m, k, v => if k' = k then (k, v) :: m else (k', v') :: dictSet m k v

/-- Lookup distinguishing a missing key (`none`) from a stored `None`
(`some none`). -/
def findEntry : UidMap → String → Option (Option String)
  | [], _ => none
  | (k', v') :: m, k => if k' = k then some v' else findEntry m k

/-- Python's `dict.get(k)`: `None` both for a missing key and for a stored
`None` value. -/
def pyGet (m : UidMap) (k : String) : Option String :=
  match findEntry m k with
  | some v => v
  | none => none

def UidMap.keys (m : UidMap) : List String := m.map Prod.fst

def UidMap.isEmpty (m : UidMap) : Bool := List.isEmpty m

/-! ## Errors, requests, responses -/

/-- The Python exceptions the embedded operations can raise.  In the spec's
taxonomy: `httpError` is `TransportError`, `xmlParseError` is
`ProtocolError`, `vobjectParseError` is `FormatError`, and the
`runtimeError` raised before a conditional write without a known etag is
`ConflictError`. -/
inductive PyErr where
  | httpError (text : String)
  | xmlParseError
  | runtimeError (msg : String)
  | valueError (msg : String)
  | vobjectParseError
deriving DecidableEq

/-- An HTTP request issued by the client, recorded in an operation's trace. -/
inductive Request where
  | propfindReq (url : String) (depth : String)
  | getReq (url : String)
  | putReq (url : String) (ifMatch : Option String) (body : String)
deriving DecidableEq

/-- The data of an `httpx` response that the embedded code inspects.
`xmlBody` is the outcome of `ET.XML` on the body: `none` models markup that
is not well-formed. -/
structure HResponse where
  status : Nat
  ocEtag : Option String
  content : String
  xmlBody : Option XNode

/-- Result of one operation: the requests it issued, its outcome, and the
identity-to-version map it leaves behind. -/
structure OpResult (α : Type) where
  requests : List Request
  result : Except PyErr α
  state : UidMap

/-- `check_response_status` (`_util.py`): non-2xx raises `HTTPError`. -/
def check_response_status (r : HResponse) : Except PyErr Unit :=
  if 200 ≤ r.status ∧ r.status ≤ 299 then .ok () else .error (.httpError r.content)

/-! ## `refresh_contacts` (`_ncaddressbook.py`, lines 80-135) -/

def davNS : String := "\x7bDAV:\x7d"

def hrefTag : String := davNS ++ "href"
def ctypeTag : String := davNS ++ "getcontenttype"
def etagTag : String := davNS ++ "getetag"
def entryTag : String := davNS ++ "entry"
def responseTag : String := davNS ++ "response"

/-- The four accepted vCard content-type strings. -/
def acceptedTypes : List String :=
  ["text/vcard", "text/vcard; charset=utf-8", "text/x-vcard", "text/x-vcard; charset=utf-8"]

def hrefFailMsg : String := "Something went wrong parsing the contacts."

def notInitMsg : String := "Contacts where not initialized. Call get_contacts"

/-- The per-entry loop variables `uid`, `etag`, `insert` together with the
map being filled. -/
structure EntrySt where
  uid : String
  etag : String
  insert : Bool
  uids : UidMap

/-- The innermost statements: set `insert` on an accepted
`getcontenttype`, record `props.text or ""` on a `getetag`. -/
def propsStep (s : EntrySt) (node : XNode) : EntrySt :=
  let s1 := if node.tag = ctypeTag ∧ node.text.getD "" ∈ acceptedTypes then
      { s with insert := true } else s
  if node.tag = etagTag then { s1 with etag := node.text.getD "" } else s1

/-- One iteration of `for refprop in entry.iter()`: derive `uid` from an
`href` (raising when its text is falsy), then the nested
`for prop in refprop.iter(): for props in prop.iter(): ...` scan followed
by the `if insert and uid` insertion. -/
def refpropStep (s : EntrySt) (refprop : XNode) : Except (PyErr × UidMap) EntrySt :=
  match (if refprop.tag = hrefTag then
      match refprop.text with
      | none => none
      | some t => if t = "" then none else some { s with uid := removeSuffix (lastSegment t) ".vcf" }
    else some s) with
  | none => .error (.runtimeError hrefFailMsg, s.uids)
  | some s' =>
    .ok (refprop.iterList.foldl
      (fun s2 prop =>
        let s3 := prop.iterList.foldl propsStep s2
        if s3.insert ∧ s3.uid ≠ "" then { s3 with uids := dictSet s3.uids s3.uid (some s3.etag) }
        else s3)
      s')

def entryLoop : EntrySt → List XNode → Except (PyErr × UidMap) EntrySt
  | s, [] => .ok s
  | s, n :: ns =>
    match refpropStep s n with
    | .error e => .error e
    | .ok s' => entryLoop s' ns

/-- Processing of one node whose tag is `entry` or `response`. -/
def processEntry (m : UidMap) (entry : XNode) : Except (PyErr × UidMap) UidMap :=
  match entryLoop ⟨"", "", false, m⟩ entry.iterList with
  | .error e => .error e
  | .ok s => .ok s.uids

/-- `for entry in element.iter(): if entry.tag in [entry, response]: ...` -/
def topLoop : UidMap → List XNode → Except (PyErr × UidMap) UidMap
  | m, [] => .ok m
  | m, n :: ns =>
    if n.tag = entryTag ∨ n.tag = responseTag then
      match processEntry m n with
      | .error e => .error e
      | .ok m' => topLoop m' ns
    else topLoop m ns

/-- The `uids` property (lines 68-73): raises `RuntimeError` when the map
is empty. -/
def uidsProp (m : UidMap) : Except PyErr (List String) :=
  if m.isEmpty then .error (.runtimeError notInitMsg) else .ok m.keys

/-- `refresh_contacts` (lines 80-135): PROPFIND with depth 1, status check,
optional clearing of the map, XML parse, the nested extraction loops, and
finally `return self.uids`. -/
def refresh_contacts (base : String) (st : UidMap) (clear : Bool) (resp : HResponse) :
    OpResult (List String) :=
  let req := Request.propfindReq base "1"
  match check_response_status resp with
  | .error e => ⟨[req], .error e, st⟩
  | .ok _ =>
    let st1 : UidMap := if clear then [] else st
    match resp.xmlBody with
    | none => ⟨[req], .error .xmlParseError, st1⟩
    | some root =>
      match topLoop st1 root.iterList with
      | .error (e, m') => ⟨[req], .error e, m'⟩
      | .ok m =>
        match uidsProp m with
        | .error e => ⟨[req], .error e, m⟩
        | .ok l => ⟨[req], .ok l, m⟩

/-! ## `get_vcard_bytes` (lines 137-149) -/

def get_vcard_bytes (base : String) (st : UidMap) (uid : String) (resp : HResponse) :
    OpResult String :=
  let req := Request.getReq (base ++ uid ++ ".vcf")
  match check_response_status resp with
  | .error e => ⟨[req], .error e, st⟩
  | .ok _ => ⟨[req], .ok resp.content, dictSet st uid resp.ocEtag⟩

/-! ## `upload_vcard` (lines 211-243) -/

def missingUidMsg : String := "vcard is missing a UUID."

def overrideMsg : String :=
  "No etag found for this vcard. Cancelling upload to prevent unintentional overriding."

/-- The two attributes of a vCard that `upload_vcard` reads: its `uid`
(`none` models a vCard without a UID property) and its serialization. -/
structure UVCard where
  uid : Option String
  serialized : String
deriving DecidableEq

def upload_vcard (base : String) (st : UidMap) (v : UVCard) (check_override : Bool)
    (resp : HResponse) : OpResult Unit :=
  match v.uid with
  | none => ⟨[], .error (.valueError missingUidMsg), st⟩
  | some uid =>
    let etag := pyGet st uid
    if pyTruthyOpt etag then
      let req := Request.putReq (base ++ uid ++ ".vcf") etag v.serialized
      match check_response_status resp with
      | .error e => ⟨[req], .error e, st⟩
      | .ok _ =>
        ⟨[req], .ok (), if pyTruthyOpt resp.ocEtag then dictSet st uid resp.ocEtag else st⟩
    else if check_override then
      ⟨[], .error (.runtimeError overrideMsg), st⟩
    else
      let req := Request.putReq (base ++ uid ++ ".vcf") none v.serialized
      match check_response_status resp with
      | .error e => ⟨[req], .error e, st⟩
      | .ok _ =>
        ⟨[req], .ok (), if pyTruthyOpt resp.ocEtag then dictSet st uid resp.ocEtag else st⟩

/-! ## vobject components (for the photo collaborators and batch fetches)

`vobject.base.Component.contents` maps a property name to the list of its
instances; only presence and count matter here, so a property instance is
its raw value string. -/

structure VComp where
  contents : List (String × List String)
deriving DecidableEq

def VComp.get (v : VComp) (k : String) : Option (List String) :=
  match v.contents.find? (fun p => p.1 = k) with
  | some p => some p.2
  | none => none

/-- Truthiness of `vcard.contents.get(k)`: missing key and empty list are
falsy. -/
def pyTruthyList : Option (List String) → Bool
  | none => false
  | some l => !l.isEmpty

/-- `vobject`'s `Component.add`: appends one more instance of the property. -/
def VComp.add (v : VComp) (k : String) (val : String) : VComp :=
  if v.contents.any (fun p => p.1 = k) then
    ⟨v.contents.map (fun p => if p.1 = k then (p.1, p.2 ++ [val]) else p)⟩
  else ⟨v.contents ++ [(k, [val])]⟩

/-! ## `asyncio.gather` and the batch operations

`download_all_contacts` (lines 187-209) and `upload_all_vcards`
(lines 254-284) call `asyncio.gather` WITHOUT `return_exceptions=True`:
the first member exception propagates out of the batch call.  Gathered
results are determinized in list order.  Per-member etag updates complete
in arbitrary interleavings and are irrelevant to the claims below, so the
batch functions take the per-member outcomes computed from the shared
starting state. -/

def gatherResults {α : Type} : List (Except PyErr α) → Except PyErr (List α)
  | [] => .ok []
  | .error e :: _ => .error e
  | .ok a :: rest =>
    match gatherResults rest with
    | .error e => .error e
    | .ok tl => .ok (a :: tl)

/-- Line 209: `[res for res in out if not isinstance(res, BaseException)]`.
Without `return_exceptions=True` a gathered list never contains an
exception object, so this predicate is constantly false and the filter
keeps everything. -/
def isBaseExceptionResult (_ : VComp) : Bool := false

/-- `download_all_contacts`: `len(self.uids)` for the progress logger (the
`uids` property may raise), one fetch per UID, `asyncio.gather`, then the
vacuous isinstance filter. -/
def download_all_contacts (st : UidMap) (fetch : String → Except PyErr VComp) :
    Except PyErr (List VComp) :=
  match uidsProp st with
  | .error e => .error e
  | .ok us =>
    match gatherResults (us.map fetch) with
    | .error e => .error e
    | .ok out => .ok (out.filter (fun r => !isBaseExceptionResult r))

/-- `upload_all_vcards`: one `upload_vcard` per `.vcf` file, gathered.
`respOf` supplies the server response for each member's PUT. -/
def upload_all_vcards (base : String) (st : UidMap) (files : List UVCard)
    (check_override : Bool) (respOf : UVCard → HResponse) : Except PyErr Unit :=
  match gatherResults (files.map (fun v => (upload_vcard base st v check_override (respOf v)).result)) with
  | .error e => .error e
  | .ok _ => .ok ()

/-! ## Photo enrichment (`_telegram.py` lines 17-37, `_whatsapp.py` lines 16-26)

Both `_add_photo_to_vcard` helpers first test `vcard.contents.get("photo")`
and return without touching the vCard when it is truthy; otherwise they add
one photo property.  The Telegram variant performs its download only after
that test, so as a function of the vCard and the downloaded bytes both are
the same conditional. -/

def telegram_add_photo_to_vcard (vcard : VComp) (photoBytes : String) : VComp :=
  if pyTruthyList (vcard.get "photo") then vcard
  else vcard.add "photo" photoBytes

def whatsapp_add_photo_to_vcard (vcard : VComp) (photo : String) : VComp :=
  if pyTruthyList (vcard.get "photo") then vcard
  else vcard.add "photo" photo

/-! ## Date-of-birth parsing (`_data_parsers.py` lines 31-47)

`string_to_date` delegates the actual text parsing to
`dateutil.parser.parse`; the century correction applied to the parsed date
is the part embedded here, with the ambient `datetime.datetime.now().year`
passed explicitly. -/

structure PDate where
  year : Int
  month : Nat
  day : Nat
deriving DecidableEq

/-- The correction in `string_to_date`: subtract 100 years when the parsed
year is greater than or equal to the current year. -/
def string_to_date_core (parsed : PDate) (currentYear : Int) : PDate :=
  if parsed.year ≥ currentYear then { parsed with year := parsed.year - 100 } else parsed

/-- The correction in `year_to_int`: subtract 100 only when the parsed year
is strictly greater than the current year. -/
def year_to_int_core (parsed : Int) (currentYear : Int) : Int :=
  if parsed > currentYear then parsed - 100 else parsed

/-! ## The merge engine

`_merge_vcards.py` is imported by `akadressen/__init__.py` but its source
is not part of the repository snapshot, so the merge engine is modelled
from the specification (spec.md section 4.2). -/

/-- Modelled from the spec: the typed fields of a Contact (section 3) —
name components, date of birth, organization/instrument note, postal
address components, typed phone numbers, email and photo. -/
inductive FieldName where
  | given | family | nickname | birthday | note
  | street | houseNumber | additionalAddr | zipCode | city | state
  | mobile | landline | email | photo
deriving DecidableEq

/-- Modelled from the spec: a Contact is a stable identity token together
with a mapping of typed fields; `none` is an absent field and `some ""` an
empty one (both "absent (non-present)" for the field-fusion policy). -/
structure Contact where
  uid : String
  fields : FieldName → Option String

/-- A field is "present (non-empty)" when it is neither absent nor the
empty string. -/
def present : Option String → Bool
  | none => false
  | some s => s ≠ ""

/-- Modelled from the spec (section 4.2, step 2): a present incoming field
overwrites, an absent one preserves the existing value. -/
def fuseField (inc old : Option String) : Option String :=
  if present inc then inc else old

/-- Modelled from the spec: field fusion of an incoming record into the
matched existing contact; the existing contact's identity token is kept. -/
def fuse (c r : Contact) : Contact :=
  ⟨c.uid, fun f => fuseField (r.fields f) (c.fields f)⟩

/-- Split a character list into its whitespace-separated words; `cur` holds
the characters of the current word in reverse. -/
def splitWords : List Char → List Char → List String
  | [], cur => if cur.isEmpty then [] else [String.mk cur.reverse]
  | c :: rest, cur =>
    if c.isWhitespace then
      if cur.isEmpty then splitWords rest [] else String.mk cur.reverse :: splitWords rest []
    else splitWords rest (c :: cur)

def joinWords : List String → String
  | [] => ""
  | [w] => w
  | w :: ws => w ++ " " ++ joinWords ws

/-- Modelled from the spec: case-insensitive, whitespace-collapsed name
normalization. -/
def normalizeName (s : String) : String :=
  joinWords (splitWords (s.toList.map Char.toLower) [])

/-- Modelled from the spec: the name-based equality key — the normalized
given and family names. -/
def Contact.nameKey (c : Contact) : String × String :=
  (normalizeName ((c.fields .given).getD ""), normalizeName ((c.fields .family).getD ""))

/-- Replace the first contact whose key matches the record's key by the
fused contact. -/
def replaceFirst : List Contact → Contact → List Contact
  | [], _ => []
  | c :: cs, r => if c.nameKey = r.nameKey then fuse c r :: cs else c :: replaceFirst cs r

/-- Modelled from the spec: one incoming record is matched to at most one
contact of the evolving set by the name key and fused into it; an unmatched
record joins the set as a brand-new contact (it already carries its locally
generated identity from parsing, section 3 lifecycle). -/
def mergeOne (cs : List Contact) (r : Contact) : List Contact :=
  if ∃ c ∈ cs, c.nameKey = r.nameKey then replaceFirst cs r else cs ++ [r]

/-- Modelled from the spec: `merge(existing, incoming)` folds the incoming
batch into the existing contact set. -/
def merge (existing incoming : List Contact) : List Contact :=
  incoming.foldl mergeOne existing

/-! ## Crafted listing responses

A listing entry of the usual multistatus shape: an optional `href` element
(with optional text), and a `propstat`/`prop` subtree optionally containing
a `getcontenttype` and a `getetag` element. -/

structure LEntry where
  hrefNode : Option (Option String)
  ctypeNode : Option (Option String)
  etagNode : Option (Option String)

def propstatTag : String := davNS ++ "propstat"
def propTag : String := davNS ++ "prop"
def multistatusTag : String := davNS ++ "multistatus"

def optNode (tag : String) : Option (Option String) → List XNode
  | none => []
  | some t => [.mk tag t []]

def mkResponse (le : LEntry) : XNode :=
  .mk responseTag none
    (optNode hrefTag le.hrefNode ++
      [.mk propstatTag none
        [.mk propTag none
          (optNode ctypeTag le.ctypeNode ++ optNode etagTag le.etagNode)]])

def mkMultistatus (es : List LEntry) : XNode :=
  .mk multistatusTag none (es.map mkResponse)

/-- Following the spec's words: an entry is accepted when it both exposes a
recognized contact media-type property and carries a resource-identifier
property. -/
def specAccepted (le : LEntry) : Bool :=
  (match le.ctypeNode with
    | some (some c) => decide (c ∈ acceptedTypes)
    | _ => false) &&
  le.hrefNode.isSome

/-- Following the spec's words: the identity token is the last path segment
of the resource identifier with the `.vcf` suffix stripped. -/
def specToken (le : LEntry) : String :=
  match le.hrefNode with
  | some (some t) => removeSuffix (lastSegment t) ".vcf"
  | _ => ""

def specEtagText (le : LEntry) : String :=
  match le.etagNode with
  | some t => t.getD ""
  | none => ""

def specAcceptedTokens (es : List LEntry) : List String :=
  (es.filter specAccepted).map specToken

def specAcceptedPairs (es : List LEntry) : UidMap :=
  (es.filter specAccepted).map (fun le => (specToken le, some (specEtagText le)))

/-! ## Basic facts about tags and element trees -/

@[simp] theorem XNode.tag_mk (t : String) (x : Option String) (cs : List XNode) :
    (XNode.mk t x cs).tag = t := rfl

@[simp] theorem XNode.text_mk (t : String) (x : Option String) (cs : List XNode) :
    (XNode.mk t x cs).text = x := rfl

@[simp] theorem XNode.children_mk (t : String) (x : Option String) (cs : List XNode) :
    (XNode.mk t x cs).children = cs := rfl

@[simp] theorem iterList_mk (t : String) (x : Option String) (cs : List XNode) :
    (XNode.mk t x cs).iterList = XNode.mk t x cs :: iterListAux cs := by
  rw [XNode.iterList]

@[simp] theorem iterListAux_nil : iterListAux [] = [] := by rw [iterListAux]

@[simp] theorem iterListAux_cons (n : XNode) (ns : List XNode) :
    iterListAux (n :: ns) = n.iterList ++ iterListAux ns := by rw [iterListAux]

@[simp] theorem responseTag_ne_hrefTag : responseTag ≠ hrefTag := by decide
@[simp] theorem propstatTag_ne_hrefTag : propstatTag ≠ hrefTag := by decide
@[simp] theorem propTag_ne_hrefTag : propTag ≠ hrefTag := by decide
@[simp] theorem ctypeTag_ne_hrefTag : ctypeTag ≠ hrefTag := by decide
@[simp] theorem etagTag_ne_hrefTag : etagTag ≠ hrefTag := by decide
@[simp] theorem responseTag_ne_ctypeTag : responseTag ≠ ctypeTag := by decide
@[simp] theorem hrefTag_ne_ctypeTag : hrefTag ≠ ctypeTag := by decide
@[simp] theorem propstatTag_ne_ctypeTag : propstatTag ≠ ctypeTag := by decide
@[simp] theorem propTag_ne_ctypeTag : propTag ≠ ctypeTag := by decide
@[simp] theorem etagTag_ne_ctypeTag : etagTag ≠ ctypeTag := by decide
@[simp] theorem responseTag_ne_etagTag : responseTag ≠ etagTag := by decide
@[simp] theorem hrefTag_ne_etagTag : hrefTag ≠ etagTag := by decide
@[simp] theorem propstatTag_ne_etagTag : propstatTag ≠ etagTag := by decide
@[simp] theorem propTag_ne_etagTag : propTag ≠ etagTag := by decide
@[simp] theorem ctypeTag_ne_etagTag : ctypeTag ≠ etagTag := by decide
@[simp] theorem multistatusTag_ne_entryTag : multistatusTag ≠ entryTag := by decide
@[simp] theorem multistatusTag_ne_responseTag : multistatusTag ≠ responseTag := by decide
@[simp] theorem hrefTag_ne_entryTag : hrefTag ≠ entryTag := by decide
@[simp] theorem hrefTag_ne_responseTag : hrefTag ≠ responseTag := by decide
@[simp] theorem propstatTag_ne_entryTag : propstatTag ≠ entryTag := by decide
@[simp] theorem propstatTag_ne_responseTag : propstatTag ≠ responseTag := by decide
@[simp] theorem propTag_ne_entryTag : propTag ≠ entryTag := by decide
@[simp] theorem propTag_ne_responseTag : propTag ≠ responseTag := by decide
@[simp] theorem ctypeTag_ne_entryTag : ctypeTag ≠ entryTag := by decide
@[simp] theorem ctypeTag_ne_responseTag : ctypeTag ≠ responseTag := by decide
@[simp] theorem etagTag_ne_entryTag : etagTag ≠ entryTag := by decide
@[simp] theorem etagTag_ne_responseTag : etagTag ≠ responseTag := by decide

theorem empty_not_accepted : ¬ ("" ∈ acceptedTypes) := by decide

/-! ## Lemmas about the identity-to-version map -/

theorem findEntry_dictSet_self (m : UidMap) (k : String) (v : Option String) :
    findEntry (dictSet m k v) k = some v := by
  induction m with
  | nil => simp [dictSet, findEntry]
  | cons p m ih =>
    obtain ⟨k', v'⟩ := p
    by_cases h : k' = k
    · simp [dictSet, findEntry, h]
    · simp [dictSet, findEntry, h, ih]

theorem mem_dictSet {p : String × Option String} (m : UidMap) (k : String) (v : Option String)
    (hp : p ∈ dictSet m k v) : p ∈ m ∨ p = (k, v) := by
  induction m with
  | nil => simpa [dictSet] using hp
  | cons q m ih =>
    obtain ⟨k', v'⟩ := q
    by_cases h : k' = k
    · simp only [dictSet, if_pos h] at hp
      rcases List.mem_cons.mp hp with h1 | h1
      · exact Or.inr h1
      · exact Or.inl (List.mem_cons_of_mem _ h1)
    · simp only [dictSet, if_neg h] at hp
      rcases List.mem_cons.mp hp with h1 | h1
      · exact Or.inl (List.mem_cons.mpr (Or.inl h1))
      · rcases ih h1 with h2 | h2
        · exact Or.inl (List.mem_cons_of_mem _ h2)
        · exact Or.inr h2

@[simp]
theorem dictSet_dictSet (m : UidMap) (k : String) (v w : Option String) :
    dictSet (dictSet m k v) k w = dictSet m k w := by
  induction m with
  | nil => simp [dictSet]
  | cons p m ih =>
    obtain ⟨k', v'⟩ := p
    by_cases h : k' = k
    · simp [dictSet, h]
    · simp [dictSet, h, ih]

theorem dictSet_fresh (m : UidMap) (k : String) (v : Option String)
    (h : findEntry m k = none) : dictSet m k v = m ++ [(k, v)] := by
  induction m with
  | nil => simp [dictSet]
  | cons p m ih =>
    obtain ⟨k', v'⟩ := p
    by_cases hk : k' = k
    · simp [findEntry, hk] at h
    · simp only [findEntry, if_neg hk] at h
      simp [dictSet, hk, ih h]

/-! ## C1: conditional write without a known version tag -/

/-- C1: a conditional write (`upload_vcard` with `check_override = true`)
on a contact whose identity has no locally stored version tag fails fast
with the conflict `RuntimeError` (the spec's `ConflictError`): no network
request is issued and the identity-to-version map is unchanged. -/
theorem conditional_write_without_version_fails_fast
    (base : String) (st : UidMap) (v : UVCard) (u : String) (resp : HResponse)
    (hu : v.uid = some u) (hnone : pyGet st u = none) :
    upload_vcard base st v true resp = ⟨[], .error (.runtimeError overrideMsg), st⟩ := by
  simp [upload_vcard, hu, hnone, pyTruthyOpt]

/-- Witness for C1: a concrete conditional upload against an empty map. -/
theorem conditional_write_without_version_fails_fast_witness :
    upload_vcard "https://nc.example/" [] ⟨some "abc", "BEGIN:VCARD"⟩ true
        ⟨200, some "e9", "", none⟩ =
      ⟨[], .error (.runtimeError overrideMsg), []⟩ :=
  conditional_write_without_version_fails_fast _ _ _ "abc" _ rfl rfl

/-! ## C5: version tags are server-supplied -/

/-- C5: every version tag stored by a fetch or a successful write comes
from the server response — `get_vcard_bytes` stores exactly the response's
`oc-etag` header for the fetched identity, a successful `upload_vcard`
stores the write response's `oc-etag` when the response carries one (and
leaves the map unchanged when it does not), and neither operation ever
puts a pair into the map that was not already there or supplied by the
response. -/
theorem version_tags_server_supplied :
    (∀ base st uid resp, 200 ≤ resp.status ∧ resp.status ≤ 299 →
        (get_vcard_bytes base st uid resp).state = dictSet st uid resp.ocEtag ∧
        findEntry (get_vcard_bytes base st uid resp).state uid = some resp.ocEtag) ∧
    (∀ base st v co resp u, v.uid = some u →
        (upload_vcard base st v co resp).result = .ok () →
        (pyTruthyOpt resp.ocEtag = true →
          findEntry (upload_vcard base st v co resp).state u = some resp.ocEtag) ∧
        (pyTruthyOpt resp.ocEtag = false → (upload_vcard base st v co resp).state = st)) ∧
    (∀ base st uid resp p, p ∈ (get_vcard_bytes base st uid resp).state →
        p ∈ st ∨ p.2 = resp.ocEtag) ∧
    (∀ base st v co resp p, p ∈ (upload_vcard base st v co resp).state →
        p ∈ st ∨ p.2 = resp.ocEtag) := by
  refine ⟨fun base st uid resp h => ?_, fun base st v co resp u hu hok => ?_,
    fun base st uid resp p hp => ?_, fun base st v co resp p hp => ?_⟩
  · simp [get_vcard_bytes, check_response_status, h, findEntry_dictSet_self]
  · simp only [upload_vcard, hu] at hok ⊢
    by_cases ht : pyTruthyOpt (pyGet st u) = true
    · simp only [ht, if_true] at hok ⊢
      cases hc : check_response_status resp with
      | error e => simp [hc] at hok
      | ok _ =>
        simp only [hc] at hok ⊢
        constructor
        · intro hresp; simp [hresp, findEntry_dictSet_self]
        · intro hresp; simp [hresp]
    · simp only [Bool.not_eq_true] at ht
      simp only [ht, Bool.false_eq_true, if_false] at hok ⊢
      by_cases hco : co
      · simp [hco] at hok
      · simp only [hco, if_false] at hok ⊢
        cases hc : check_response_status resp with
        | error e => simp [hc] at hok
        | ok _ =>
          simp only [hc] at hok ⊢
          constructor
          · intro hresp; simp [hresp, findEntry_dictSet_self]
          · intro hresp; simp [hresp]
  · simp only [get_vcard_bytes] at hp
    cases hc : check_response_status resp with
    | error e => simp [hc] at hp; exact Or.inl hp
    | ok _ =>
      simp only [hc] at hp
      have := mem_dictSet st uid resp.ocEtag hp
      rcases this with h1 | h1
      · exact Or.inl h1
      · right; rw [h1]
  · simp only [upload_vcard] at hp
    cases hu : v.uid with
    | none => simp [hu] at hp; exact Or.inl hp
    | some u =>
      simp only [hu] at hp
      by_cases ht : pyTruthyOpt (pyGet st u) = true
      · simp only [ht, if_true] at hp
        cases hc : check_response_status resp with
        | error e => simp [hc] at hp; exact Or.inl hp
        | ok _ =>
          simp only [hc] at hp
          by_cases hresp : pyTruthyOpt resp.ocEtag = true
          · simp only [hresp, if_true] at hp
            rcases mem_dictSet st u resp.ocEtag hp with h1 | h1
            · exact Or.inl h1
            · right; rw [h1]
          · simp only [Bool.not_eq_true] at hresp
            simp only [hresp, Bool.false_eq_true, if_false] at hp
            exact Or.inl hp
      · simp only [Bool.not_eq_true] at ht
        simp only [ht, Bool.false_eq_true, if_false] at hp
        by_cases hco : co
        · simp only [hco, if_true] at hp
          exact Or.inl hp
        · simp only [hco, if_false] at hp
          cases hc : check_response_status resp with
          | error e => simp [hc] at hp; exact Or.inl hp
          | ok _ =>
            simp only [hc] at hp
            by_cases hresp : pyTruthyOpt resp.ocEtag = true
            · simp only [hresp, if_true] at hp
              rcases mem_dictSet st u resp.ocEtag hp with h1 | h1
              · exact Or.inl h1
              · right; rw [h1]
            · simp only [Bool.not_eq_true] at hresp
              simp only [hresp, Bool.false_eq_true, if_false] at hp
              exact Or.inl hp

/-- Witness for C5: a concrete fetch stores the response's etag. -/
theorem version_tags_server_supplied_witness :
    findEntry (get_vcard_bytes "https://nc.example/" [("abc", some "old")] "abc"
        ⟨200, some "new", "VCARDDATA", none⟩).state "abc" = some (some "new") :=
  (version_tags_server_supplied.1 "https://nc.example/" [("abc", some "old")] "abc"
    ⟨200, some "new", "VCARDDATA", none⟩ (by decide)).2

/-! ## C8: photo enrichment never re-enriches -/

/-- C8: both photo collaborators leave a vCard that already carries a photo
entirely unchanged — the photo is not replaced and no second one is added. -/
theorem photo_enrichment_never_reenriches (v : VComp) (pT pW : String)
    (h : pyTruthyList (v.get "photo") = true) :
    telegram_add_photo_to_vcard v pT = v ∧ whatsapp_add_photo_to_vcard v pW = v := by
  constructor <;> simp [telegram_add_photo_to_vcard, whatsapp_add_photo_to_vcard, h]

/-- Witness for C8: a vCard with an existing photo is untouched. -/
theorem photo_enrichment_never_reenriches_witness :
    telegram_add_photo_to_vcard ⟨[("photo", ["OLDJPEG"])]⟩ "NEWJPEG" =
        (⟨[("photo", ["OLDJPEG"])]⟩ : VComp) ∧
      whatsapp_add_photo_to_vcard ⟨[("photo", ["OLDJPEG"])]⟩ "NEWJPEG" =
        (⟨[("photo", ["OLDJPEG"])]⟩ : VComp) :=
  photo_enrichment_never_reenriches ⟨[("photo", ["OLDJPEG"])]⟩ "NEWJPEG" "NEWJPEG" (by decide)

/-! ## C9: date-of-birth century correction -/

/-- C9 counterexample: with the current year 2026, a date-of-birth string
parsed to year 2126 is corrected by one century to 2026, which does not lie
strictly in the past — refuting "the returned year always lies strictly in
the past". -/
theorem dob_century_correction_counterexample :
    (2126 : Int) ≥ 2026 ∧ (string_to_date_core ⟨2126, 1, 1⟩ 2026).year = 2026 ∧
      ¬ (string_to_date_core ⟨2126, 1, 1⟩ 2026).year < 2026 := by
  refine ⟨by decide, by norm_num [string_to_date_core], by norm_num [string_to_date_core]⟩

/-- C9 amended: `string_to_date` subtracts 100 years exactly when the
parsed year is at least the current year, so the returned year is strictly
in the past whenever the parsed year is below current + 100; `year_to_int`
differs at the boundary, leaving a parsed year equal to the current year
unchanged. -/
theorem dob_century_correction (d : PDate) (cy : Int) :
    (d.year ≥ cy → string_to_date_core d cy = ⟨d.year - 100, d.month, d.day⟩) ∧
    (d.year < cy → string_to_date_core d cy = d) ∧
    (d.year < cy + 100 → (string_to_date_core d cy).year < cy) ∧
    year_to_int_core cy cy = cy := by
  refine ⟨fun h => ?_, fun h => ?_, fun h => ?_, ?_⟩
  · simp [string_to_date_core, h]
  · simp [string_to_date_core, not_le.mpr h]
  · by_cases hge : d.year ≥ cy
    · simp [string_to_date_core, hge]; omega
    · simp [string_to_date_core, hge]; omega
  · simp [year_to_int_core]

/-- Witness for C9: the boundary year is corrected into the past century by
`string_to_date`. -/
theorem dob_century_correction_witness :
    (1999 : Int) ≥ 1999 ∧ string_to_date_core ⟨1999, 5, 1⟩ 1999 = ⟨1899, 5, 1⟩ :=
  ⟨by decide, (dob_century_correction ⟨1999, 5, 1⟩ 1999).1 (by decide)⟩

/-! ## C2: one failing member aborts the whole batch -/

def fiveUidState : UidMap :=
  [("u1", some "e1"), ("u2", some "e2"), ("u3", some "e3"), ("u4", some "e4"), ("u5", some "e5")]

/-- A fetch oracle for which exactly the third identity fails to decode. -/
def fetchOracle (u : String) : Except PyErr VComp :=
  if u = "u3" then .error .vobjectParseError else .ok ⟨[("fn", ["X"])]⟩

/-- C2 evaluated at the failing input: with five identities of which the
third fetch raises, `download_all_contacts` raises instead of returning the
four successfully decoded contacts, because `asyncio.gather` is called
without `return_exceptions=True`; likewise one member's conflict makes
`upload_all_vcards` raise. -/
theorem batch_failure_aborts_batch :
    download_all_contacts fiveUidState fetchOracle = .error .vobjectParseError ∧
    upload_all_vcards "https://nc.example/" [("a", some "ea")]
        [⟨some "a", "A"⟩, ⟨some "b", "B"⟩] true (fun _ => ⟨201, some "r", "", none⟩) =
      .error (.runtimeError overrideMsg) := by
  constructor <;> rfl

/-! ## C6: merge never erases -/

/-- C6: for a matched existing/incoming pair, every present (non-empty)
incoming field overwrites, every absent incoming field preserves the
existing value, the matched pair merges into the single fused contact, and
in particular an existing photo survives an incoming record without one. -/
theorem merge_field_fusion (c r : Contact) (hk : c.nameKey = r.nameKey) :
    (∀ f, (present (r.fields f) = true → (fuse c r).fields f = r.fields f) ∧
          (present (r.fields f) = false → (fuse c r).fields f = c.fields f)) ∧
    mergeOne [c] r = [fuse c r] ∧
    (present (r.fields .photo) = false → (fuse c r).fields .photo = c.fields .photo) := by
  refine ⟨fun f => ⟨fun h => ?_, fun h => ?_⟩, ?_, fun h => ?_⟩
  · simp [fuse, fuseField, h]
  · simp [fuse, fuseField, h]
  · have hex : ∃ c' ∈ [c], c'.nameKey = r.nameKey := ⟨c, List.mem_singleton_self c, hk⟩
    simp [mergeOne, hex, replaceFirst, hk]
  · simp [fuse, fuseField, h]

def cJane : Contact :=
  ⟨"uid-existing", fun f => match f with
    | .given => some "Jane"
    | .family => some "Doe"
    | .photo => some "PHOTOBYTES"
    | _ => none⟩

def rJane : Contact :=
  ⟨"uid-incoming", fun f => match f with
    | .given => some " jane "
    | .family => some "  doe"
    | .email => some "jane@example.org"
    | _ => none⟩

/-- Witness for C6: the normalized-name-matched pair keeps the existing
photo when the incoming record lacks one. -/
theorem merge_field_fusion_witness :
    cJane.nameKey = rJane.nameKey ∧ present (rJane.fields .photo) = false ∧
      (fuse cJane rJane).fields .photo = some "PHOTOBYTES" :=
  ⟨by decide, by decide, (merge_field_fusion cJane rJane (by decide)).2.2 (by decide)⟩

end Akadressen

namespace Akadressen

/-! ## Computation of `refresh_contacts` on crafted listings -/

set_option maxHeartbeats 1000000 in
/-- Processing one well-href'd listing entry inserts exactly the accepted
entry's token with its etag text (or nothing when the entry is rejected or
its derived token is empty). -/
theorem processEntry_mkResponse (m : UidMap) (t : String) (c e : Option (Option String))
    (ht : t ≠ "") :
    processEntry m (mkResponse ⟨some (some t), c, e⟩) =
      .ok (if specAccepted ⟨some (some t), c, e⟩ = true ∧ specToken ⟨some (some t), c, e⟩ ≠ ""
           then dictSet m (specToken ⟨some (some t), c, e⟩)
                  (some (specEtagText ⟨some (some t), c, e⟩))
           else m) := by
  rcases e with _ | e' <;> rcases c with _ | (_ | cs)
  · simp [processEntry, mkResponse, optNode, entryLoop, refpropStep, propsStep,
      specAccepted, specToken, specEtagText, ht]
  · simp [processEntry, mkResponse, optNode, entryLoop, refpropStep, propsStep,
      specAccepted, specToken, specEtagText, ht, empty_not_accepted]
  · by_cases hacc : cs ∈ acceptedTypes
    · by_cases htok : removeSuffix (lastSegment t) ".vcf" = "" <;>
        simp [processEntry, mkResponse, optNode, entryLoop, refpropStep, propsStep,
          specAccepted, specToken, specEtagText, ht, hacc, htok]
    · simp [processEntry, mkResponse, optNode, entryLoop, refpropStep, propsStep,
        specAccepted, specToken, specEtagText, ht, hacc]
  · simp [processEntry, mkResponse, optNode, entryLoop, refpropStep, propsStep,
      specAccepted, specToken, specEtagText, ht]
  · simp [processEntry, mkResponse, optNode, entryLoop, refpropStep, propsStep,
      specAccepted, specToken, specEtagText, ht, empty_not_accepted]
  · by_cases hacc : cs ∈ acceptedTypes
    · by_cases htok : removeSuffix (lastSegment t) ".vcf" = "" <;>
        simp [processEntry, mkResponse, optNode, entryLoop, refpropStep, propsStep,
          specAccepted, specToken, specEtagText, ht, hacc, htok]
    · simp [processEntry, mkResponse, optNode, entryLoop, refpropStep, propsStep,
        specAccepted, specToken, specEtagText, ht, hacc]

theorem topLoop_append (m : UidMap) (xs ys : List XNode) :
    topLoop m (xs ++ ys) =
      match topLoop m xs with
      | .error e => .error e
      | .ok m' => topLoop m' ys := by
  induction xs generalizing m with
  | nil => simp [topLoop]
  | cons n ns ih =>
    simp only [List.cons_append, topLoop]
    by_cases hn : n.tag = entryTag ∨ n.tag = responseTag
    · simp only [hn, if_true]
      cases processEntry m n with
      | error e => rfl
      | ok m' => exact ih m'
    · simp only [hn, if_false]
      exact ih m

theorem topLoop_skip (m : UidMap) (xs : List XNode)
    (h : ∀ n ∈ xs, ¬(n.tag = entryTag ∨ n.tag = responseTag)) :
    topLoop m xs = .ok m := by
  induction xs with
  | nil => rfl
  | cons n ns ih =>
    simp only [topLoop, if_neg (h n (List.mem_cons_self n ns))]
    exact ih fun b hb => h b (List.mem_cons_of_mem n hb)

/-- All nodes strictly below a crafted response element carry property
tags, never an entry or response tag. -/
theorem mkResponse_tail_tags (t : Option String) (c e : Option (Option String)) :
    ((iterListAux (mkResponse ⟨some t, c, e⟩).children).all
      (fun n => !(n.tag == entryTag) && !(n.tag == responseTag))) = true := by
  rcases c with _ | c' <;> rcases e with _ | e' <;> rfl

theorem topLoop_mkResponse_iter (m : UidMap) (t : Option String) (c e : Option (Option String)) :
    topLoop m (mkResponse ⟨some t, c, e⟩).iterList =
      match processEntry m (mkResponse ⟨some t, c, e⟩) with
      | .error er => .error er
      | .ok m' => .ok m' := by
  have htail := List.all_eq_true.mp (mkResponse_tail_tags t c e)
  have hskip : ∀ m', topLoop m' (iterListAux (mkResponse ⟨some t, c, e⟩).children) = .ok m' := by
    intro m'
    refine topLoop_skip m' _ fun n hn => ?_
    have := htail n hn
    simp only [Bool.and_eq_true, Bool.not_eq_true', beq_eq_false_iff_ne, ne_eq] at this
    rintro (h1 | h2)
    · exact this.1 h1
    · exact this.2 h2
  have hR : mkResponse ⟨some t, c, e⟩ =
      XNode.mk responseTag none (mkResponse ⟨some t, c, e⟩).children := rfl
  conv_lhs => rw [hR, iterList_mk]
  simp only [topLoop, XNode.tag_mk, eq_self_iff_true, or_true, if_true]
  rw [← hR]
  cases hpe : processEntry m (mkResponse ⟨some t, c, e⟩) with
  | error er => rfl
  | ok m' => exact hskip m'

/-- The effect of one crafted listing entry on the map. -/
def listingStep (m : UidMap) (le : LEntry) : UidMap :=
  if specAccepted le = true ∧ specToken le ≠ "" then
    dictSet m (specToken le) (some (specEtagText le))
  else m

theorem topLoop_entries (es : List LEntry) (m : UidMap)
    (hgood : ∀ le ∈ es, ∃ t, le.hrefNode = some (some t) ∧ t ≠ "") :
    topLoop m (iterListAux (es.map mkResponse)) = .ok (es.foldl listingStep m) := by
  induction es generalizing m with
  | nil => rfl
  | cons le rest ih =>
    obtain ⟨tle, hhref, htne⟩ := hgood le (List.mem_cons_self le rest)
    obtain ⟨h, c, e⟩ := le
    have hh : h = some (some tle) := hhref
    subst hh
    simp only [List.map_cons, iterListAux_cons]
    rw [topLoop_append, topLoop_mkResponse_iter, processEntry_mkResponse m tle c e htne]
    have ihr := ih (listingStep m ⟨some (some tle), c, e⟩)
      (fun le' hle' => hgood le' (List.mem_cons_of_mem _ hle'))
    rw [List.foldl_cons]
    exact ihr

theorem topLoop_mkMultistatus (m : UidMap) (es : List LEntry)
    (hgood : ∀ le ∈ es, ∃ t, le.hrefNode = some (some t) ∧ t ≠ "") :
    topLoop m (mkMultistatus es).iterList = .ok (es.foldl listingStep m) := by
  have hM : (mkMultistatus es).iterList =
      XNode.mk multistatusTag none (es.map mkResponse) :: iterListAux (es.map mkResponse) := rfl
  rw [hM]
  simp only [topLoop, XNode.tag_mk]
  rw [if_neg (by simp)]
  exact topLoop_entries es m hgood

theorem findEntry_append_none (m : UidMap) (k k' : String) (v : Option String)
    (h : findEntry m k' = none) (hk : k ≠ k') :
    findEntry (m ++ [(k, v)]) k' = none := by
  induction m with
  | nil => simp [findEntry, hk]
  | cons p m ih =>
    obtain ⟨k0, v0⟩ := p
    by_cases h0 : k0 = k'
    · simp [findEntry, h0] at h
    · simp only [findEntry, if_neg h0] at h
      simp [findEntry, h0, ih h]

/-- Folding the listing steps over entries whose accepted tokens are fresh,
distinct and non-empty appends exactly the accepted pairs. -/
theorem foldl_listingStep (es : List LEntry) :
    ∀ m : UidMap,
      (∀ le ∈ es, specAccepted le = true → findEntry m (specToken le) = none) →
      (specAcceptedTokens es).Nodup →
      (∀ le ∈ es, specAccepted le = true → specToken le ≠ "") →
      es.foldl listingStep m = m ++ specAcceptedPairs es := by
  induction es with
  | nil => intro m _ _ _; simp [specAcceptedPairs]
  | cons le rest ih =>
    intro m hfresh hnodup htok
    by_cases hacc : specAccepted le = true
    · have htokle := htok le (List.mem_cons_self le rest) hacc
      have hstep : listingStep m le = m ++ [(specToken le, some (specEtagText le))] := by
        rw [listingStep, if_pos ⟨hacc, htokle⟩]
        exact dictSet_fresh m _ _ (hfresh le (List.mem_cons_self le rest) hacc)
      have hnodup' : (specAcceptedTokens (le :: rest)) =
          specToken le :: specAcceptedTokens rest := by
        simp [specAcceptedTokens, hacc]
      rw [hnodup'] at hnodup
      have hpairs : specAcceptedPairs (le :: rest) =
          (specToken le, some (specEtagText le)) :: specAcceptedPairs rest := by
        simp [specAcceptedPairs, hacc]
      rw [List.foldl_cons, hstep,
        ih (m ++ [(specToken le, some (specEtagText le))])
          (fun le' hle' hacc' => by
            refine findEntry_append_none m _ _ _ (hfresh le' (List.mem_cons_of_mem _ hle') hacc') ?_
            intro hkeq
            exact (List.nodup_cons.mp hnodup).1
              (hkeq ▸ (by
                simp only [specAcceptedTokens]
                exact List.mem_map_of_mem specToken (List.mem_filter.mpr ⟨hle', hacc'⟩)))
          )
          (List.nodup_cons.mp hnodup).2
          (fun le' hle' => htok le' (List.mem_cons_of_mem _ hle')),
        hpairs, List.append_assoc]
      rfl
    · have hstep : listingStep m le = m := by
        rw [listingStep, if_neg]
        intro hcon
        exact hacc hcon.1
      have hpairs : specAcceptedPairs (le :: rest) = specAcceptedPairs rest := by
        simp only [Bool.not_eq_true] at hacc
        simp [specAcceptedPairs, hacc]
      have hnodup' : specAcceptedTokens (le :: rest) = specAcceptedTokens rest := by
        simp only [Bool.not_eq_true] at hacc
        simp [specAcceptedTokens, hacc]
      rw [List.foldl_cons, hstep,
        ih m (fun le' hle' hacc' => hfresh le' (List.mem_cons_of_mem _ hle') hacc')
          (hnodup' ▸ hnodup)
          (fun le' hle' => htok le' (List.mem_cons_of_mem _ hle')), hpairs]

/-! ## Propagation of the missing-href failure -/

/-- A falsy `href` text: `None` or the empty string. -/
def falsyText (n : XNode) : Prop := n.text = none ∨ n.text = some ""

theorem refpropStep_bad (s : EntrySt) (n : XNode) (htag : n.tag = hrefTag)
    (hf : falsyText n) :
    refpropStep s n = .error (.runtimeError hrefFailMsg, s.uids) := by
  rcases hf with hf | hf <;> simp [refpropStep, htag, hf]

theorem refpropStep_error (s : EntrySt) (n : XNode) (e : PyErr × UidMap)
    (h : refpropStep s n = .error e) : e.1 = .runtimeError hrefFailMsg := by
  unfold refpropStep at h
  split at h
  · obtain rfl : (PyErr.runtimeError hrefFailMsg, s.uids) = e := by
      injection h
    rfl
  · exact absurd h (by simp)

theorem entryLoop_bad (s : EntrySt) (ns : List XNode)
    (h : ∃ n ∈ ns, n.tag = hrefTag ∧ falsyText n) :
    ∃ m', entryLoop s ns = .error (.runtimeError hrefFailMsg, m') := by
  induction ns generalizing s with
  | nil => simp at h
  | cons n rest ih =>
    obtain ⟨b, hb, htag, hf⟩ := h
    rcases List.mem_cons.mp hb with rfl | hbt
    · exact ⟨s.uids, by simp [entryLoop, refpropStep_bad s b htag hf]⟩
    · cases hr : refpropStep s n with
      | error e =>
        refine ⟨e.2, ?_⟩
        have := refpropStep_error s n e hr
        simp only [entryLoop, hr]
        obtain ⟨e1, e2⟩ := e
        simp only at this
        rw [this]
      | ok s' =>
        obtain ⟨m', hm'⟩ := ih s' ⟨b, hbt, htag, hf⟩
        exact ⟨m', by simp [entryLoop, hr, hm']⟩

theorem entryLoop_error (s : EntrySt) (ns : List XNode) (e : PyErr × UidMap)
    (h : entryLoop s ns = .error e) : e.1 = .runtimeError hrefFailMsg := by
  induction ns generalizing s with
  | nil => simp [entryLoop] at h
  | cons n rest ih =>
    simp only [entryLoop] at h
    cases hr : refpropStep s n with
    | error e' =>
      rw [hr] at h
      injection h with h'
      exact h' ▸ refpropStep_error s n e' hr
    | ok s' =>
      rw [hr] at h
      exact ih s' h

theorem processEntry_bad (m : UidMap) (n : XNode)
    (h : ∃ b ∈ n.iterList, b.tag = hrefTag ∧ falsyText b) :
    ∃ m', processEntry m n = .error (.runtimeError hrefFailMsg, m') := by
  obtain ⟨m', hm'⟩ := entryLoop_bad ⟨"", "", false, m⟩ n.iterList h
  exact ⟨m', by simp [processEntry, hm']⟩

theorem processEntry_error (m : UidMap) (n : XNode) (e : PyErr × UidMap)
    (h : processEntry m n = .error e) : e.1 = .runtimeError hrefFailMsg := by
  unfold processEntry at h
  cases hl : entryLoop ⟨"", "", false, m⟩ n.iterList with
  | error e' =>
    rw [hl] at h
    injection h with h'
    exact h' ▸ entryLoop_error _ _ e' hl
  | ok s => rw [hl] at h; exact absurd h (by simp)

theorem topLoop_bad (ns : List XNode) :
    ∀ m : UidMap,
      (∃ n ∈ ns, (n.tag = entryTag ∨ n.tag = responseTag) ∧
        ∃ b ∈ n.iterList, b.tag = hrefTag ∧ falsyText b) →
      ∃ m', topLoop m ns = .error (.runtimeError hrefFailMsg, m') := by
  induction ns with
  | nil => intro m h; simp at h
  | cons n rest ih =>
    intro m h
    obtain ⟨n', hn', htags, hbad⟩ := h
    rcases List.mem_cons.mp hn' with rfl | hmem
    · obtain ⟨m', hm'⟩ := processEntry_bad m n' hbad
      exact ⟨m', by simp [topLoop, htags, hm']⟩
    · by_cases htag : n.tag = entryTag ∨ n.tag = responseTag
      · cases hp : processEntry m n with
        | error e =>
          refine ⟨e.2, ?_⟩
          have := processEntry_error m n e hp
          simp only [topLoop, htag, if_true, hp]
          obtain ⟨e1, e2⟩ := e
          simp only at this
          rw [this]
        | ok m1 =>
          obtain ⟨m', hm'⟩ := ih m1 ⟨n', hmem, htags, hbad⟩
          exact ⟨m', by simp [topLoop, htag, hp, hm']⟩
      · obtain ⟨m', hm'⟩ := ih m ⟨n', hmem, htags, hbad⟩
        exact ⟨m', by simp [topLoop, htag, hm']⟩

/-! ## Evaluation shapes of `refresh_contacts` -/

theorem refresh_contacts_eval_ok (base : String) (st : UidMap) (resp : HResponse)
    (root : XNode) (m : UidMap)
    (hstatus : 200 ≤ resp.status ∧ resp.status ≤ 299)
    (hxml : resp.xmlBody = some root)
    (htop : topLoop [] root.iterList = .ok m)
    (hnem : m ≠ []) :
    refresh_contacts base st true resp = ⟨[Request.propfindReq base "1"], .ok m.keys, m⟩ := by
  have hc : check_response_status resp = .ok () := by
    simp [check_response_status, hstatus]
  unfold refresh_contacts
  simp only [hc, hxml, if_true, htop, uidsProp]
  rw [if_neg]
  simp [UidMap.isEmpty, hnem]

theorem refresh_contacts_eval_empty (base : String) (st : UidMap) (resp : HResponse)
    (root : XNode)
    (hstatus : 200 ≤ resp.status ∧ resp.status ≤ 299)
    (hxml : resp.xmlBody = some root)
    (htop : topLoop [] root.iterList = .ok []) :
    refresh_contacts base st true resp =
      ⟨[Request.propfindReq base "1"], .error (.runtimeError notInitMsg), []⟩ := by
  have hc : check_response_status resp = .ok () := by
    simp [check_response_status, hstatus]
  unfold refresh_contacts
  simp only [hc, hxml, if_true, htop, uidsProp]
  rfl

theorem refresh_contacts_eval_topErr (base : String) (st : UidMap) (resp : HResponse)
    (root : XNode) (e : PyErr) (m' : UidMap)
    (hstatus : 200 ≤ resp.status ∧ resp.status ≤ 299)
    (hxml : resp.xmlBody = some root)
    (htop : topLoop [] root.iterList = .error (e, m')) :
    refresh_contacts base st true resp = ⟨[Request.propfindReq base "1"], .error e, m'⟩ := by
  have hc : check_response_status resp = .ok () := by
    simp [check_response_status, hstatus]
  unfold refresh_contacts
  simp only [hc, hxml, if_true, htop]

theorem refresh_contacts_eval_parseErr (base : String) (st : UidMap) (clear : Bool)
    (resp : HResponse)
    (hstatus : 200 ≤ resp.status ∧ resp.status ≤ 299)
    (hxml : resp.xmlBody = none) :
    refresh_contacts base st clear resp =
      ⟨[Request.propfindReq base "1"], .error .xmlParseError, if clear then [] else st⟩ := by
  have hc : check_response_status resp = .ok () := by
    simp [check_response_status, hstatus]
  unfold refresh_contacts
  simp only [hc, hxml]

/-! ## C3: the listing parse -/

def rejectedOnlyEntry : LEntry :=
  ⟨some (some "col/a.vcf"), some (some "text/html"), some (some "E1")⟩

/-- C3 counterexample: for a crafted response with N = 0 accepted and M = 1
rejected entries, `refresh_contacts` does not return the N = 0 accepted
identities — it raises the empty-collection `RuntimeError` instead. -/
theorem listing_parse_counterexample :
    specAcceptedTokens [rejectedOnlyEntry] = [] ∧
    (refresh_contacts "https://nc.example/" [] true
        ⟨207, none, "", some (mkMultistatus [rejectedOnlyEntry])⟩).result =
      .error (.runtimeError notInitMsg) := by
  constructor <;> rfl

/-- C3 amended: on a well-formed listing (every entry carries an href with
non-empty text, accepted entries derive distinct non-empty tokens) with at
least one accepted entry, a full refresh returns exactly the accepted
entries' tokens — the last href path segment with `.vcf` stripped — and
stores exactly those identities with their etag texts; rejected entries
contribute nothing. -/
theorem listing_parse_accepted (es : List LEntry) (base : String) (st : UidMap)
    (resp : HResponse)
    (hstatus : 200 ≤ resp.status ∧ resp.status ≤ 299)
    (hxml : resp.xmlBody = some (mkMultistatus es))
    (hhref : ∀ le ∈ es, ∃ t, le.hrefNode = some (some t) ∧ t ≠ "")
    (htok : ∀ le ∈ es, specAccepted le = true → specToken le ≠ "")
    (hnodup : (specAcceptedTokens es).Nodup)
    (hne : specAcceptedTokens es ≠ []) :
    (refresh_contacts base st true resp).result = .ok (specAcceptedTokens es) ∧
    (refresh_contacts base st true resp).state = specAcceptedPairs es := by
  have hfold := foldl_listingStep es [] (fun le hle hacc => rfl) hnodup htok
  rw [List.nil_append] at hfold
  have htop := topLoop_mkMultistatus [] es hhref
  rw [hfold] at htop
  have hkeys : (specAcceptedPairs es).keys = specAcceptedTokens es := by
    simp [specAcceptedPairs, specAcceptedTokens, UidMap.keys, List.map_map]
  have hnem : specAcceptedPairs es ≠ [] := by
    intro hcon
    exact hne (by rw [← hkeys, hcon]; rfl)
  rw [refresh_contacts_eval_ok base st resp _ _ hstatus hxml htop hnem, hkeys]
  exact ⟨rfl, rfl⟩

def acceptedWitnessEntry : LEntry :=
  ⟨some (some "addr/book/jane-uid.vcf"), some (some "text/vcard"), some (some "W1")⟩

/-- Witness for C3's amended theorem at a concrete singleton listing. -/
theorem listing_parse_accepted_witness :
    (refresh_contacts "https://nc.example/" [("stale", some "S")] true
        ⟨207, none, "", some (mkMultistatus [acceptedWitnessEntry])⟩).result =
      .ok ["jane-uid"] :=
  (listing_parse_accepted [acceptedWitnessEntry] "https://nc.example/" [("stale", some "S")]
    ⟨207, none, "", some (mkMultistatus [acceptedWitnessEntry])⟩
    (by norm_num) rfl
    (fun le hle => by
      rw [List.mem_singleton] at hle
      exact ⟨"addr/book/jane-uid.vcf", by rw [hle]; rfl, by decide⟩)
    (fun le hle _ => by
      rw [List.mem_singleton] at hle
      rw [hle]
      decide)
    (by decide) (by decide)).1

/-! ## C4: protocol failures of the listing -/

def hreflessEntry : LEntry := ⟨none, some (some "text/vcard"), some (some "E2")⟩

def goodEntry : LEntry :=
  ⟨some (some "col/a.vcf"), some (some "text/vcard"), some (some "E1")⟩

/-- C4 counterexample: a listing entry that exposes an accepted
content-type but carries no resource-identifier element at all is silently
skipped — `refresh_contacts` returns the other entry's identity without
raising, refuting "for every listing entry whose href value is missing,
the listing call raises". -/
theorem listing_missing_href_counterexample :
    ((mkMultistatus [goodEntry, hreflessEntry]).iterList.any
        (fun n => decide (n.tag = responseTag) &&
          !(n.iterList.any (fun b => decide (b.tag = hrefTag))))) = true ∧
    (refresh_contacts "https://nc.example/" [] true
        ⟨207, none, "", some (mkMultistatus [goodEntry, hreflessEntry])⟩).result =
      .ok ["a"] := by
  constructor <;> rfl

/-- C4 amended: `refresh_contacts` fails with the parse error when the
response body is not well-formed markup, and fails with the
contact-parsing `RuntimeError` whenever a processed listing entry contains
an href element with missing or empty text; an entry with no href element
is silently skipped (see the counterexample). -/
theorem listing_protocol_failures :
    (∀ base st clear resp, 200 ≤ resp.status ∧ resp.status ≤ 299 →
        resp.xmlBody = none →
        (refresh_contacts base st clear resp).result = .error .xmlParseError) ∧
    (∀ base st resp root, 200 ≤ resp.status ∧ resp.status ≤ 299 →
        resp.xmlBody = some root →
        (∃ n ∈ root.iterList, (n.tag = entryTag ∨ n.tag = responseTag) ∧
          ∃ b ∈ n.iterList, b.tag = hrefTag ∧ falsyText b) →
        (refresh_contacts base st true resp).result = .error (.runtimeError hrefFailMsg)) := by
  constructor
  · intro base st clear resp hstatus hxml
    rw [refresh_contacts_eval_parseErr base st clear resp hstatus hxml]
  · intro base st resp root hstatus hxml hbad
    obtain ⟨m', hm'⟩ := topLoop_bad root.iterList [] hbad
    rw [refresh_contacts_eval_topErr base st resp root _ m' hstatus hxml hm']

def emptyHrefEntry : LEntry := ⟨some (some ""), some (some "text/vcard"), none⟩

/-- Witness for C4's amended theorem: a malformed body raises the parse
error, and an entry whose href element has empty text raises the
`RuntimeError`. -/
theorem listing_protocol_failures_witness :
    (refresh_contacts "https://nc.example/" [] true ⟨207, none, "not xml", none⟩).result =
        .error .xmlParseError ∧
    (refresh_contacts "https://nc.example/" [] true
        ⟨207, none, "", some (mkMultistatus [emptyHrefEntry])⟩).result =
      .error (.runtimeError hrefFailMsg) := by
  constructor
  · exact listing_protocol_failures.1 "https://nc.example/" [] true _ (by norm_num) rfl
  · refine listing_protocol_failures.2 "https://nc.example/" [] _ _ (by norm_num) rfl ?_
    refine ⟨mkResponse emptyHrefEntry, ?_, Or.inr rfl, XNode.mk hrefTag (some "") [], ?_, rfl, Or.inr rfl⟩
    · exact List.mem_cons_of_mem _ (List.mem_cons_self _ _)
    · exact List.mem_cons_of_mem _ (List.mem_cons_self _ _)

/-! ## C10: an empty identity set is never returned -/

theorem foldl_listingStep_rejected (es : List LEntry)
    (hrej : ∀ le ∈ es, specAccepted le = false) :
    ∀ m : UidMap, es.foldl listingStep m = m := by
  induction es with
  | nil => intro m; rfl
  | cons le rest ih =>
    intro m
    have hle := hrej le (List.mem_cons_self le rest)
    rw [List.foldl_cons, listingStep, if_neg (by simp [hle])]
    exact ih (fun le' h => hrej le' (List.mem_cons_of_mem _ h)) m

/-- C10: the `uids` property raises on an empty identity-to-version map, a
refresh that returns at all returns a non-empty identity list, and a full
refresh of a well-formed listing with zero accepted entries raises the
`RuntimeError` instead of yielding an empty set. -/
theorem refresh_refuses_empty :
    uidsProp [] = .error (.runtimeError notInitMsg) ∧
    (∀ base st clear resp l, (refresh_contacts base st clear resp).result = .ok l → l ≠ []) ∧
    (∀ base st resp es, 200 ≤ resp.status ∧ resp.status ≤ 299 →
        resp.xmlBody = some (mkMultistatus es) →
        (∀ le ∈ es, ∃ t, le.hrefNode = some (some t) ∧ t ≠ "") →
        (∀ le ∈ es, specAccepted le = false) →
        (refresh_contacts base st true resp).result = .error (.runtimeError notInitMsg)) := by
  refine ⟨rfl, ?_, ?_⟩
  · intro base st clear resp l h
    unfold refresh_contacts at h
    cases hc : check_response_status resp with
    | error e => simp only [hc] at h; exact absurd h (by simp)
    | ok u =>
      simp only [hc] at h
      cases hx : resp.xmlBody with
      | none => simp only [hx] at h; exact absurd h (by simp)
      | some root =>
        simp only [hx] at h
        cases ht : topLoop (if clear then [] else st) root.iterList with
        | error e =>
          obtain ⟨e1, e2⟩ := e
          simp only [ht] at h
          exact absurd h (by simp)
        | ok m =>
          simp only [ht] at h
          cases hu : uidsProp m with
          | error e => simp only [hu] at h; exact absurd h (by simp)
          | ok l' =>
            simp only [hu] at h
            have hl : l' = l := by simpa using h
            unfold uidsProp at hu
            by_cases hm : UidMap.isEmpty m
            · rw [if_pos hm] at hu; exact absurd hu (by simp)
            · rw [if_neg hm] at hu
              have hkeys : m.keys = l' := by simpa using hu
              subst hl
              rw [← hkeys]
              simp only [UidMap.keys, ne_eq, List.map_eq_nil_iff]
              intro hcon
              exact hm (by simp [UidMap.isEmpty, hcon])
  · intro base st resp es hstatus hxml hhref hrej
    have htop := topLoop_mkMultistatus [] es hhref
    rw [foldl_listingStep_rejected es hrej []] at htop
    rw [refresh_contacts_eval_empty base st resp _ hstatus hxml htop]

def rejectedEntryW : LEntry := ⟨some (some "x/b.vcf"), some (some "application/xml"), none⟩

/-- Witness for C10: a full refresh that finds only a rejected entry
raises. -/
theorem refresh_refuses_empty_witness :
    (refresh_contacts "https://nc.example/" [("old", some "O")] true
        ⟨207, none, "", some (mkMultistatus [rejectedEntryW])⟩).result =
      .error (.runtimeError notInitMsg) :=
  refresh_refuses_empty.2.2 "https://nc.example/" [("old", some "O")]
    ⟨207, none, "", some (mkMultistatus [rejectedEntryW])⟩ [rejectedEntryW]
    (by norm_num) rfl
    (fun le hle => by rw [List.mem_singleton] at hle; exact ⟨"x/b.vcf", by rw [hle]; rfl, by decide⟩)
    (fun le hle => by rw [List.mem_singleton] at hle; rw [hle]; decide)

/-! ## C7: merge determinism and idempotence

The proof tracks, through the fold over the incoming batch, the position of
the contact a record fuses into: the key of a contact never changes once it
is in the set, new contacts join at the end, and a field changes only when
a record with the same key and a present field fuses into it. -/

@[simp] theorem fuse_fields (c r : Contact) (f : FieldName) :
    (fuse c r).fields f = fuseField (r.fields f) (c.fields f) := rfl

@[simp] theorem fuse_uid (c r : Contact) : (fuse c r).uid = c.uid := rfl

theorem fuseField_pos {a : Option String} (b : Option String) (h : present a = true) :
    fuseField a b = a := by simp [fuseField, h]

theorem fuseField_neg {a : Option String} (b : Option String) (h : present a = false) :
    fuseField a b = b := by simp [fuseField, h]

theorem Contact.extEq {c d : Contact} (h1 : c.uid = d.uid)
    (h2 : ∀ f, c.fields f = d.fields f) : c = d := by
  cases c
  cases d
  rw [Contact.mk.injEq]
  exact ⟨h1, funext h2⟩

theorem nameKey_fuse {c r : Contact} (h : c.nameKey = r.nameKey) :
    (fuse c r).nameKey = c.nameKey := by
  have h1 := congrArg Prod.fst h
  have h2 := congrArg Prod.snd h
  simp only [Contact.nameKey] at h1 h2 ⊢
  rw [Prod.mk.injEq]
  constructor
  · cases hp : present (r.fields .given) with
    | true => rw [fuse_fields, fuseField_pos _ hp]; exact h1.symm
    | false => rw [fuse_fields, fuseField_neg _ hp]
  · cases hp : present (r.fields .family) with
    | true => rw [fuse_fields, fuseField_pos _ hp]; exact h2.symm
    | false => rw [fuse_fields, fuseField_neg _ hp]

theorem replaceFirst_cons_hit {c r : Contact} (L : List Contact)
    (h : c.nameKey = r.nameKey) : replaceFirst (c :: L) r = fuse c r :: L := by
  simp [replaceFirst, h]

theorem replaceFirst_cons_miss {c r : Contact} (L : List Contact)
    (h : ¬ c.nameKey = r.nameKey) : replaceFirst (c :: L) r = c :: replaceFirst L r := by
  simp [replaceFirst, h]

theorem replaceFirst_append_hit (B L : List Contact) (r : Contact)
    (h : ∃ a ∈ B, a.nameKey = r.nameKey) :
    replaceFirst (B ++ L) r = replaceFirst B r ++ L := by
  induction B with
  | nil => simp at h
  | cons b B' ih =>
    by_cases hb : b.nameKey = r.nameKey
    · simp [replaceFirst, hb]
    · obtain ⟨a, ha, hk⟩ := h
      rcases List.mem_cons.mp ha with rfl | ha'
      · exact absurd hk hb
      · simp [replaceFirst, hb, ih ⟨a, ha', hk⟩]

theorem replaceFirst_append_free (B L : List Contact) (r : Contact)
    (h : ∀ a ∈ B, a.nameKey ≠ r.nameKey) :
    replaceFirst (B ++ L) r = B ++ replaceFirst L r := by
  induction B with
  | nil => rfl
  | cons b B' ih =>
    simp [replaceFirst, h b (List.mem_cons_self b B'),
      ih fun a ha => h a (List.mem_cons_of_mem _ ha)]

theorem replaceFirst_mem_keys (cs : List Contact) (r : Contact) :
    ∀ a ∈ replaceFirst cs r, ∃ b ∈ cs, a.nameKey = b.nameKey := by
  induction cs with
  | nil => intro a ha; simp [replaceFirst] at ha
  | cons c cs' ih =>
    intro a ha
    by_cases hc : c.nameKey = r.nameKey
    · rw [replaceFirst_cons_hit cs' hc] at ha
      rcases List.mem_cons.mp ha with rfl | ha'
      · exact ⟨c, List.mem_cons_self _ _, nameKey_fuse hc⟩
      · exact ⟨a, List.mem_cons_of_mem _ ha', rfl⟩
    · rw [replaceFirst_cons_miss cs' hc] at ha
      rcases List.mem_cons.mp ha with rfl | ha'
      · exact ⟨a, List.mem_cons_self _ _, rfl⟩
      · obtain ⟨b, hb, hk⟩ := ih a ha'
        exact ⟨b, List.mem_cons_of_mem _ hb, hk⟩

theorem mergeOne_hit {cs : List Contact} {r : Contact}
    (h : ∃ c ∈ cs, c.nameKey = r.nameKey) : mergeOne cs r = replaceFirst cs r := by
  simp [mergeOne, h]

theorem mergeOne_miss {cs : List Contact} {r : Contact}
    (h : ¬ ∃ c ∈ cs, c.nameKey = r.nameKey) : mergeOne cs r = cs ++ [r] := by
  simp only [mergeOne, if_neg h]

theorem replaceFirst_split (cs : List Contact) (r : Contact)
    (hit : ∃ c ∈ cs, c.nameKey = r.nameKey) :
    ∃ B₁ c₀ B₂, cs = B₁ ++ c₀ :: B₂ ∧ replaceFirst cs r = B₁ ++ fuse c₀ r :: B₂ ∧
      (∀ a ∈ B₁, a.nameKey ≠ r.nameKey) ∧ c₀.nameKey = r.nameKey := by
  induction cs with
  | nil => simp at hit
  | cons c cs' ih =>
    by_cases h0 : c.nameKey = r.nameKey
    · exact ⟨[], c, cs', by simp, by simp [replaceFirst_cons_hit cs' h0], by simp, h0⟩
    · obtain ⟨a, ha, hk⟩ := hit
      rcases List.mem_cons.mp ha with rfl | ha'
      · exact absurd hk h0
      · obtain ⟨B₁, c₀, B₂, hcs, hrf, hfree, hkey⟩ := ih ⟨a, ha', hk⟩
        refine ⟨c :: B₁, c₀, B₂, by rw [hcs]; rfl,
          by rw [replaceFirst_cons_miss cs' h0, hrf]; rfl, fun a' ha'' => ?_, hkey⟩
        rcases List.mem_cons.mp ha'' with rfl | h'
        · exact h0
        · exact hfree a' h'

theorem mergeOne_split (cs : List Contact) (r : Contact) :
    ∃ B₁ c₀ B₂, mergeOne cs r = B₁ ++ c₀ :: B₂ ∧
      (∀ a ∈ B₁, a.nameKey ≠ r.nameKey) ∧ c₀.nameKey = r.nameKey ∧
      (∀ f, present (r.fields f) = true → c₀.fields f = r.fields f) := by
  by_cases hit : ∃ c ∈ cs, c.nameKey = r.nameKey
  · obtain ⟨B₁, c₀, B₂, hcs, hrf, hfree, hkey⟩ := replaceFirst_split cs r hit
    exact ⟨B₁, fuse c₀ r, B₂, by rw [mergeOne_hit hit, hrf], hfree,
      (nameKey_fuse hkey).trans hkey, fun f hp => by rw [fuse_fields, fuseField_pos _ hp]⟩
  · refine ⟨cs, r, [], by rw [mergeOne_miss hit], ?_, rfl, fun f _ => rfl⟩
    push_neg at hit
    exact hit

/-- Tracking a contact through the fold: its key and identity are stable,
its position stays ahead of any same-key contact, and a field only changes
through a same-key record with that field present. -/
theorem foldl_mergeOne_track (rs : List Contact) :
    ∀ (B₁ : List Contact) (c₀ : Contact) (B₂ : List Contact),
      (∀ a ∈ B₁, a.nameKey ≠ c₀.nameKey) →
      ∃ C₁ c₁ C₂,
        List.foldl mergeOne (B₁ ++ c₀ :: B₂) rs = C₁ ++ c₁ :: C₂ ∧
        (∀ a ∈ C₁, a.nameKey ≠ c₀.nameKey) ∧
        c₁.nameKey = c₀.nameKey ∧ c₁.uid = c₀.uid ∧
        (∀ f, c₁.fields f = c₀.fields f ∨
          ∃ r' ∈ rs, r'.nameKey = c₀.nameKey ∧ present (r'.fields f) = true) := by
  induction rs with
  | nil =>
    intro B₁ c₀ B₂ hfree
    exact ⟨B₁, c₀, B₂, rfl, hfree, rfl, rfl, fun f => Or.inl rfl⟩
  | cons r0 rs' ih =>
    intro B₁ c₀ B₂ hfree
    rw [List.foldl_cons]
    by_cases hit : ∃ c ∈ B₁ ++ c₀ :: B₂, c.nameKey = r0.nameKey
    · by_cases hitB : ∃ a ∈ B₁, a.nameKey = r0.nameKey
      · rw [mergeOne_hit hit, replaceFirst_append_hit B₁ _ r0 hitB]
        obtain ⟨C₁, c₁, C₂, heq, hfree', hkey, huid, hflds⟩ :=
          ih (replaceFirst B₁ r0) c₀ B₂ (fun a ha => by
            obtain ⟨b, hb, hk⟩ := replaceFirst_mem_keys B₁ r0 a ha
            rw [hk]
            exact hfree b hb)
        exact ⟨C₁, c₁, C₂, heq, hfree', hkey, huid, fun f =>
          (hflds f).imp id fun ⟨r', hr', h1, h2⟩ => ⟨r', List.mem_cons_of_mem _ hr', h1, h2⟩⟩
      · have hfreeB : ∀ a ∈ B₁, a.nameKey ≠ r0.nameKey := by
          push_neg at hitB
          exact hitB
        by_cases h0 : c₀.nameKey = r0.nameKey
        · rw [mergeOne_hit hit, replaceFirst_append_free B₁ _ r0 hfreeB,
            replaceFirst_cons_hit B₂ h0]
          obtain ⟨C₁, c₁, C₂, heq, hfree', hkey, huid, hflds⟩ :=
            ih B₁ (fuse c₀ r0) B₂ (fun a ha => by
              rw [nameKey_fuse h0]
              exact hfree a ha)
          refine ⟨C₁, c₁, C₂, heq, fun a ha => by
              have := hfree' a ha
              rwa [nameKey_fuse h0] at this,
            hkey.trans (nameKey_fuse h0), huid.trans (fuse_uid c₀ r0), fun f => ?_⟩
          rcases hflds f with he | ⟨r', hr', hk', hp'⟩
          · rw [fuse_fields] at he
            cases hp : present (r0.fields f) with
            | true =>
              exact Or.inr ⟨r0, List.mem_cons_self _ _, h0.symm, hp⟩
            | false =>
              rw [fuseField_neg _ hp] at he
              exact Or.inl he
          · rw [nameKey_fuse h0] at hk'
            exact Or.inr ⟨r', List.mem_cons_of_mem _ hr', hk', hp'⟩
        · rw [mergeOne_hit hit, replaceFirst_append_free B₁ _ r0 hfreeB,
            replaceFirst_cons_miss B₂ h0]
          obtain ⟨C₁, c₁, C₂, heq, hfree', hkey, huid, hflds⟩ :=
            ih B₁ c₀ (replaceFirst B₂ r0) hfree
          exact ⟨C₁, c₁, C₂, heq, hfree', hkey, huid, fun f =>
            (hflds f).imp id fun ⟨r', hr', h1, h2⟩ => ⟨r', List.mem_cons_of_mem _ hr', h1, h2⟩⟩
    · rw [mergeOne_miss hit]
      have hassoc : (B₁ ++ c₀ :: B₂) ++ [r0] = B₁ ++ c₀ :: (B₂ ++ [r0]) := by
        simp
      rw [hassoc]
      obtain ⟨C₁, c₁, C₂, heq, hfree', hkey, huid, hflds⟩ := ih B₁ c₀ (B₂ ++ [r0]) hfree
      exact ⟨C₁, c₁, C₂, heq, hfree', hkey, huid, fun f =>
        (hflds f).imp id fun ⟨r', hr', h1, h2⟩ => ⟨r', List.mem_cons_of_mem _ hr', h1, h2⟩⟩

/-- Replaying the remaining records erases a difference at the first
occurrence of a key, provided every differing field is overwritten by some
remaining same-key record with that field present. -/
theorem foldl_mergeOne_congr (rs : List Contact) :
    ∀ (A₁ A₂ : List Contact) (c d : Contact),
      c.uid = d.uid → c.nameKey = d.nameKey →
      (∀ a ∈ A₁, a.nameKey ≠ c.nameKey) →
      (∀ f, c.fields f = d.fields f ∨
        ∃ r' ∈ rs, r'.nameKey = c.nameKey ∧ present (r'.fields f) = true) →
      List.foldl mergeOne (A₁ ++ c :: A₂) rs = List.foldl mergeOne (A₁ ++ d :: A₂) rs := by
  induction rs with
  | nil =>
    intro A₁ A₂ c d huid hkey hfree hflds
    have : c = d := Contact.extEq huid fun f => (hflds f).resolve_right (by simp)
    rw [this]
  | cons r0 rs' ih =>
    intro A₁ A₂ c d huid hkey hfree hflds
    rw [List.foldl_cons, List.foldl_cons]
    have hmem : (∃ x ∈ A₁ ++ c :: A₂, x.nameKey = r0.nameKey) ↔
        (∃ x ∈ A₁ ++ d :: A₂, x.nameKey = r0.nameKey) := by
      constructor
      · rintro ⟨x, hx, hk⟩
        rcases List.mem_append.mp hx with h1 | h1
        · exact ⟨x, List.mem_append.mpr (Or.inl h1), hk⟩
        · rcases List.mem_cons.mp h1 with rfl | h2
          · exact ⟨d, List.mem_append.mpr (Or.inr (List.mem_cons_self d A₂)), hkey ▸ hk⟩
          · exact ⟨x, List.mem_append.mpr (Or.inr (List.mem_cons_of_mem _ h2)), hk⟩
      · rintro ⟨x, hx, hk⟩
        rcases List.mem_append.mp hx with h1 | h1
        · exact ⟨x, List.mem_append.mpr (Or.inl h1), hk⟩
        · rcases List.mem_cons.mp h1 with rfl | h2
          · exact ⟨c, List.mem_append.mpr (Or.inr (List.mem_cons_self c A₂)), hkey.symm ▸ hk⟩
          · exact ⟨x, List.mem_append.mpr (Or.inr (List.mem_cons_of_mem _ h2)), hk⟩
    by_cases hit : ∃ x ∈ A₁ ++ c :: A₂, x.nameKey = r0.nameKey
    · have hit' := hmem.mp hit
      rw [mergeOne_hit hit, mergeOne_hit hit']
      by_cases hitA : ∃ a ∈ A₁, a.nameKey = r0.nameKey
      · rw [replaceFirst_append_hit A₁ _ r0 hitA, replaceFirst_append_hit A₁ _ r0 hitA]
        have hr0c : r0.nameKey ≠ c.nameKey := by
          obtain ⟨a, ha, hk⟩ := hitA
          intro hcon
          exact hfree a ha (hk.trans hcon)
        refine ih (replaceFirst A₁ r0) A₂ c d huid hkey
          (fun a ha => by
            obtain ⟨b, hb, hk⟩ := replaceFirst_mem_keys A₁ r0 a ha
            rw [hk]
            exact hfree b hb)
          (fun f => (hflds f).imp id fun ⟨r', hr', h1, h2⟩ => ?_)
        rcases List.mem_cons.mp hr' with rfl | hr''
        · exact absurd h1 hr0c
        · exact ⟨r', hr'', h1, h2⟩
      · have hfreeA : ∀ a ∈ A₁, a.nameKey ≠ r0.nameKey := by
          push_neg at hitA
          exact hitA
        by_cases h0 : c.nameKey = r0.nameKey
        · have h0' : d.nameKey = r0.nameKey := hkey ▸ h0
          rw [replaceFirst_append_free A₁ _ r0 hfreeA, replaceFirst_append_free A₁ _ r0 hfreeA,
            replaceFirst_cons_hit A₂ h0, replaceFirst_cons_hit A₂ h0']
          refine ih A₁ A₂ (fuse c r0) (fuse d r0) (by rw [fuse_uid, fuse_uid, huid])
            (by rw [nameKey_fuse h0, nameKey_fuse h0', hkey])
            (fun a ha => by rw [nameKey_fuse h0]; exact hfree a ha)
            (fun f => ?_)
          cases hp : present (r0.fields f) with
          | true =>
            rw [fuse_fields, fuse_fields, fuseField_pos _ hp, fuseField_pos _ hp]
            exact Or.inl rfl
          | false =>
            rw [fuse_fields, fuse_fields, fuseField_neg _ hp, fuseField_neg _ hp]
            rcases hflds f with he | ⟨r', hr', h1, h2⟩
            · exact Or.inl he
            · rcases List.mem_cons.mp hr' with rfl | hr''
              · rw [h2] at hp
                exact absurd hp (by simp)
              · exact Or.inr ⟨r', hr'', by rw [nameKey_fuse h0]; exact h1, h2⟩
        · have h0' : ¬ d.nameKey = r0.nameKey := by
            rw [← hkey]
            exact h0
          rw [replaceFirst_append_free A₁ _ r0 hfreeA, replaceFirst_append_free A₁ _ r0 hfreeA,
            replaceFirst_cons_miss A₂ h0, replaceFirst_cons_miss A₂ h0']
          refine ih A₁ (replaceFirst A₂ r0) c d huid hkey hfree
            (fun f => (hflds f).imp id fun ⟨r', hr', h1, h2⟩ => ?_)
          rcases List.mem_cons.mp hr' with rfl | hr''
          · exact absurd (h1.symm) h0
          · exact ⟨r', hr'', h1, h2⟩
    · have hit' : ¬ ∃ x ∈ A₁ ++ d :: A₂, x.nameKey = r0.nameKey := fun h => hit (hmem.mpr h)
      rw [mergeOne_miss hit, mergeOne_miss hit']
      have hassoc1 : (A₁ ++ c :: A₂) ++ [r0] = A₁ ++ c :: (A₂ ++ [r0]) := by simp
      have hassoc2 : (A₁ ++ d :: A₂) ++ [r0] = A₁ ++ d :: (A₂ ++ [r0]) := by simp
      rw [hassoc1, hassoc2]
      refine ih A₁ (A₂ ++ [r0]) c d huid hkey hfree
        (fun f => (hflds f).imp id fun ⟨r', hr', h1, h2⟩ => ?_)
      rcases List.mem_cons.mp hr' with rfl | hr''
      · exact absurd ⟨c, List.mem_append.mpr (Or.inr (List.mem_cons_self c A₂)), h1.symm⟩ hit
      · exact ⟨r', hr'', h1, h2⟩

theorem merge_idem (e i : List Contact) : merge (merge e i) i = merge e i := by
  unfold merge
  induction i generalizing e with
  | nil => rfl
  | cons r rs ih =>
    rw [List.foldl_cons, List.foldl_cons]
    have hM := ih (mergeOne e r)
    obtain ⟨B₁, c₀, B₂, hsplit, hfreeB, hkey₀, hcap⟩ := mergeOne_split e r
    obtain ⟨C₁, c₁, C₂, heq, hfreeC, hkeyC, huidC, hfldsC⟩ :=
      foldl_mergeOne_track rs B₁ c₀ B₂ (fun a ha => by
        rw [hkey₀]
        exact hfreeB a ha)
    rw [hsplit] at hM ⊢
    rw [heq]
    have hkeyC' : c₁.nameKey = r.nameKey := hkeyC.trans hkey₀
    have hitM : ∃ x ∈ C₁ ++ c₁ :: C₂, x.nameKey = r.nameKey :=
      ⟨c₁, List.mem_append.mpr (Or.inr (List.mem_cons_self c₁ C₂)), hkeyC'⟩
    have hfreeC' : ∀ a ∈ C₁, a.nameKey ≠ r.nameKey := by
      intro a ha
      rw [← hkey₀]
      exact hfreeC a ha
    rw [mergeOne_hit hitM, replaceFirst_append_free C₁ _ r hfreeC',
      replaceFirst_cons_hit C₂ hkeyC']
    have hstep : List.foldl mergeOne (C₁ ++ fuse c₁ r :: C₂) rs =
        List.foldl mergeOne (C₁ ++ c₁ :: C₂) rs := by
      refine foldl_mergeOne_congr rs C₁ C₂ (fuse c₁ r) c₁ (fuse_uid c₁ r)
        (nameKey_fuse hkeyC') (fun a ha => by
          rw [nameKey_fuse hkeyC', hkeyC]
          exact hfreeC a ha)
        (fun f => ?_)
      cases hp : present (r.fields f) with
      | false =>
        rw [fuse_fields, fuseField_neg _ hp]
        exact Or.inl rfl
      | true =>
        rw [fuse_fields, fuseField_pos _ hp]
        rcases hfldsC f with he | ⟨r', hr', h1, h2⟩
        · exact Or.inl ((hcap f hp).symm ▸ he.symm ▸ rfl)
        · exact Or.inr ⟨r', hr', by rw [nameKey_fuse hkeyC']; exact h1.trans hkeyC.symm, h2⟩
    rw [hstep, ← heq, hM, heq]

/-- C7: the merge is deterministic — as a pure function it returns the
field-for-field identical result on the same inputs — and idempotent:
merging the merged set again with the same incoming batch returns the same
contact set. -/
theorem merge_deterministic_idempotent (existing incoming : List Contact) :
    merge existing incoming = merge existing incoming ∧
    merge (merge existing incoming) incoming = merge existing incoming :=
  ⟨rfl, merge_idem existing incoming⟩

end Akadressen
